import Mathlib

/-!
Verification of the sales analytics pipeline (parser, validator/filter,
aggregator, enrichment merger).

Shallow embedding conventions:
* Python dict-shaped transaction records are modelled as a fixed-shape
  structure (all keys are always present and typed, as produced by the
  parser in `src/utils/file_handler.py`).
* Python `int` is modelled as `ℤ`, Python `float` as `ℚ` (exact
  arithmetic; `inf`/`nan` and binary rounding are outside the model).
* Python strings are modelled as `List Char` (`Str` below), with the
  string primitives the source uses (`strip`, `split`, `replace`,
  `startswith`, `[1:]`, lexicographic comparison) defined structurally.
* Python `None`-able parameters are modelled as `Option`; Python
  truthiness tests on them (`if region:`, `if min_amount:`) are modelled
  by `truthyStr`/`truthyNum` below, so that `None`, `""` and `0` are all
  falsy, exactly as in the source.
* Insertion-ordered Python dicts used for grouping are modelled as
  association lists updated by `upsert` (update in place, append new
  keys at the end), and `sorted(...)` as the stable `List.mergeSort`.
* Exceptions swallowed by `try/except` blocks are modelled by `Option`.
-/

namespace Sales

/-- Python strings, as character sequences. -/
abbrev Str := List Char

/-- Whitespace for the purposes of `str.strip()` (the ASCII whitespace
characters; exotic unicode whitespace is outside the model). -/
def isSpace (c : Char) : Bool := c = ' ' || c = '\t' || c = '\n' || c = '\r'

/-- `s.strip()`: remove leading and trailing whitespace. -/
def strTrim (s : Str) : Str :=
  ((s.dropWhile isSpace).reverse.dropWhile isSpace).reverse

/-- `s.split(sep)` for a one-character separator: split at every
occurrence, keeping empty pieces (`''.split(c) == ['']`). -/
def splitOnChar (sep : Char) : Str → List Str
  | [] => [[]]
  | c :: rest =>
    if c = sep then [] :: splitOnChar sep rest
    else
      match splitOnChar sep rest with
      | g :: gs => (c :: g) :: gs
      | [] => [[c]]

/-- `s.replace(',', '')`: delete every comma. -/
def stripCommas (s : Str) : Str := s.filter fun c => !(c = ',')

/-- `s.startswith(pre)`. -/
def strStartsWith (s pre : Str) : Bool := pre.isPrefixOf s

/-- Python string comparison: lexicographic by code point. -/
def strLe : Str → Str → Bool
  | [], _ => true
  | _ :: _, [] => false
  | a :: as, b :: bs => if a < b then true else if b < a then false else strLe as bs

/-- A parsed transaction record, as built by `parse_transactions` in
`src/utils/file_handler.py` (field names follow the source). -/
structure Transaction where
  TransactionID : Str
  Date : Str
  ProductID : Str
  ProductName : Str
  Quantity : ℤ
  UnitPrice : ℚ
  CustomerID : Str
  Region : Str
deriving DecidableEq

/-- `amount = Quantity * UnitPrice`, the derived money value used
throughout `validate_and_filter` and the aggregator. -/
def amount (t : Transaction) : ℚ := (t.Quantity : ℚ) * t.UnitPrice

/-! ## Model of the Python numeric string conversions -/

/-- Numeric value of a digit string (most significant digit first). -/
def digitsVal (cs : Str) : ℕ :=
  cs.foldl (fun n c => 10 * n + (c.toNat - 48)) 0

/-- Split an optional leading sign off a string. -/
def readSign : Str → ℤ × Str
  | '-' :: rest => (-1, rest)
  | '+' :: rest => (1, rest)
  | cs => (1, cs)

/-- Model of the built-in `int(s)` conversion used at
`file_handler.py:123` and `api_handler.py:195`: surrounding whitespace
is stripped, an optional sign is allowed, and the remainder must be a
non-empty run of decimal digits (digit-grouping underscores are outside
the model). Failure (`ValueError`) is `none`. -/
def pyInt (s : Str) : Option ℤ :=
  let p := readSign (strTrim s)
  if p.2 ≠ [] ∧ p.2.all Char.isDigit then some (p.1 * digitsVal p.2) else none

/-- Model of the built-in `float(s)` conversion used at
`file_handler.py:126`: surrounding whitespace stripped, optional sign,
then decimal digits with at most one decimal point and at least one
digit overall (exponent notation, `inf` and `nan` are outside the
model). Failure (`ValueError`) is `none`. -/
def pyFloat (s : Str) : Option ℚ :=
  let p := readSign (strTrim s)
  let ip := p.2.takeWhile Char.isDigit
  match p.2.dropWhile Char.isDigit with
  | [] => if ip ≠ [] then some ((p.1 : ℚ) * digitsVal ip) else none
  | '.' :: fp =>
    if fp.all Char.isDigit ∧ (ip ≠ [] ∨ fp ≠ []) then
      some ((p.1 : ℚ) * ((digitsVal ip : ℚ) + (digitsVal fp : ℚ) / 10 ^ fp.length))
    else none
  | _ => none

/-! ## Record Parser (`parse_transactions`, file_handler.py:66-139) -/

/-- Body of the parsing loop once the line has been split into exactly 8
whitespace-trimmed fields (file_handler.py:120-132).  A conversion
failure of quantity or price discards the whole line (`none`). -/
def parseFields : List Str → Option Transaction
  | [tid, date, pid, pname, qty, price, cid, reg] =>
    (pyInt (stripCommas qty)).bind fun q =>
      (pyFloat (stripCommas price)).map fun p =>
        { TransactionID := tid, Date := date, ProductID := pid,
          ProductName := stripCommas pname, Quantity := q, UnitPrice := p,
          CustomerID := cid, Region := reg }
  | _ => none

/-- One iteration of the parsing loop (file_handler.py:107-136): split
on the pipe, discard the line unless it has exactly 8 fields, trim each
field, then build the typed record. -/
def parseLine (line : Str) : Option Transaction :=
  let fields := splitOnChar '|' line
  if fields.length = 8 then parseFields (fields.map strTrim) else none

/-- `parse_transactions` (file_handler.py:66-139): successfully parsed
lines are appended in input order, failing lines contribute nothing. -/
def parse_transactions (raw_lines : List Str) : List Transaction :=
  raw_lines.filterMap parseLine

/-! ## Validator/Filter (`validate_and_filter`, file_handler.py:142-282) -/

/-- The six validation checks of file_handler.py:198-225, in source
order.  A record is counted valid exactly when every check passes. -/
def isValid (t : Transaction) : Bool :=
  !(t.Quantity ≤ 0) && !(t.UnitPrice ≤ 0) &&
  strStartsWith t.TransactionID ['T'] && strStartsWith t.ProductID ['P'] &&
  strStartsWith t.CustomerID ['C'] &&
  !t.CustomerID.isEmpty && !t.Region.isEmpty

/-- The first validation pass (file_handler.py:194-228): collect the
valid records in order and count the invalid ones. -/
def validateAll : List Transaction → List Transaction × ℕ
  | [] => ([], 0)
  | t :: ts =>
    let rest := validateAll ts
    if isValid t then (t :: rest.1, rest.2) else (rest.1, rest.2 + 1)

/-- Python truthiness of the optional `region` argument: `None` and the
empty string are falsy (`if region:` at file_handler.py:247). -/
def truthyStr : Option Str → Bool
  | none => false
  | some s => !s.isEmpty

/-- Python truthiness of the optional numeric bounds: `None` and `0`
are falsy (`if min_amount or max_amount:` at file_handler.py:253 and
the per-bound tests at lines 260 and 262). -/
def truthyNum : Option ℚ → Bool
  | none => false
  | some x => !decide (x = 0)

/-- The body of the amount-filter loop (file_handler.py:255-266): a
record is skipped when a truthy `min_amount` exceeds its amount, or a
truthy `max_amount` is below it. -/
def passesAmount (mn mx : Option ℚ) (t : Transaction) : Bool :=
  let a := amount t
  if truthyNum mn && decide (a < mn.getD 0) then false
  else if truthyNum mx && decide (mx.getD 0 < a) then false
  else true

/-- The `filter_summary` dictionary of file_handler.py:273-279. -/
structure FilterSummary where
  total_input : ℕ
  invalid : ℕ
  filtered_by_region : ℕ
  filtered_by_amount : ℕ
  final_count : ℕ
deriving DecidableEq

/-- `validate_and_filter` (file_handler.py:142-282).  Note that both
running counters are initialised to the validated count *before* the
region filter runs (lines 243-244), and `after_amount_filter` is only
refreshed when the amount block actually executes. -/
def validate_and_filter (transactions : List Transaction)
    (region : Option Str) (min_amount max_amount : Option ℚ) :
    List Transaction × ℕ × FilterSummary :=
  let total_input := transactions.length
  let validated := validateAll transactions
  let valid0 := validated.1
  let invalid_count := validated.2
  let afterRegion0 := valid0.length
  let afterAmount0 := valid0.length
  let stage1 :=
    if truthyStr region then
      let f := valid0.filter fun t => t.Region == region.getD []
      (f, f.length)
    else (valid0, afterRegion0)
  let stage2 :=
    if truthyNum min_amount || truthyNum max_amount then
      let f := stage1.1.filter (passesAmount min_amount max_amount)
      (f, f.length)
    else (stage1.1, afterAmount0)
  (stage2.1, invalid_count,
    { total_input := total_input, invalid := invalid_count,
      filtered_by_region := stage1.2, filtered_by_amount := stage2.2,
      final_count := stage2.1.length })

/-! ## Grouping infrastructure

The three aggregation loops (`region_data`, `daily_data`,
`product_data` in `src/utils/data_processor.py`) all build an
insertion-ordered dict: create a default entry on first sight of a key,
then update the entry in place.  `upsert` models one such dict update
and `groupFold` models a whole loop. -/

/-- Update the entry for `k` in place, or append `(k, f init)` when `k`
is new (the `if key not in d: d[key] = default` + update pattern). -/
def upsert {K V : Type} [DecidableEq K] (k : K) (init : V) (f : V → V) :
    List (K × V) → List (K × V)
  | [] => [(k, f init)]
  | e :: rest =>
    if e.1 = k then (e.1, f e.2) :: rest else e :: upsert k init f rest

/-- An aggregation loop over the transactions: group by `key`, starting
each group at `init` and folding each member in with `upd`. -/
def groupFold {K V : Type} [DecidableEq K] (key : Transaction → K)
    (init : V) (upd : Transaction → V → V) (tx : List Transaction) :
    List (K × V) :=
  tx.foldl (fun acc t => upsert (key t) init (upd t) acc) []

/-! ## Aggregator (`src/utils/data_processor.py`) -/

/-- `calculate_total_revenue` (data_processor.py:8-34): running sum of
`amount` over all transactions. -/
def calculate_total_revenue (transactions : List Transaction) : ℚ :=
  transactions.foldl (fun acc t => acc + amount t) 0

/-- Round-half-to-even to the nearest integer, the rounding mode of the
built-in `round`. -/
def roundHalfEven (y : ℚ) : ℤ :=
  if y - ⌊y⌋ < 1/2 then ⌊y⌋
  else if 1/2 < y - ⌊y⌋ then ⌊y⌋ + 1
  else if ⌊y⌋ % 2 = 0 then ⌊y⌋ else ⌊y⌋ + 1

/-- Model of `round(x, 2)` (two decimal places, ties to even). -/
def round2 (x : ℚ) : ℚ := (roundHalfEven (x * 100) : ℚ) / 100

/-- The per-region accumulator dict of data_processor.py:66. -/
structure RegionAcc where
  total_sales : ℚ
  transaction_count : ℕ
deriving DecidableEq

/-- A finished entry of the `region_wise_sales` result. -/
structure RegionStats where
  total_sales : ℚ
  transaction_count : ℕ
  percentage : ℚ
deriving DecidableEq

/-- The grouping loop of `region_wise_sales` (data_processor.py:72-83). -/
def regionGroups (tx : List Transaction) : List (Str × RegionAcc) :=
  groupFold (fun t => t.Region) { total_sales := 0, transaction_count := 0 }
    (fun t d => { total_sales := d.total_sales + amount t,
                  transaction_count := d.transaction_count + 1 }) tx

/-- `region_wise_sales` (data_processor.py:37-102): group by region,
attach `round(share * 100, 2)` (or 0 when total revenue is not
positive), then stable-sort by `total_sales` descending. -/
def region_wise_sales (tx : List Transaction) : List (Str × RegionStats) :=
  let total_revenue := calculate_total_revenue tx
  let result := (regionGroups tx).map fun e =>
    let percentage := if 0 < total_revenue
      then e.2.total_sales / total_revenue * 100 else 0
    (e.1, RegionStats.mk e.2.total_sales e.2.transaction_count (round2 percentage))
  result.mergeSort fun a b => decide (b.2.total_sales ≤ a.2.total_sales)

/-- The per-product accumulator dict used by both
`top_selling_products` (data_processor.py:132-150) and
`low_performing_products` (data_processor.py:394-412) — the two loops
are textually identical. -/
structure ProductAcc where
  quantity : ℤ
  revenue : ℚ
deriving DecidableEq

/-- The shared product-grouping loop. -/
def productGroups (tx : List Transaction) : List (Str × ProductAcc) :=
  groupFold (fun t => t.ProductName) { quantity := 0, revenue := 0 }
    (fun t d => { quantity := d.quantity + t.Quantity,
                  revenue := d.revenue + amount t }) tx

/-- The `(name, quantity, revenue)` triples built from the product
dict (data_processor.py:153-156 and 415-420). -/
def productEntries (tx : List Transaction) : List (Str × ℤ × ℚ) :=
  (productGroups tx).map fun e => (e.1, e.2.quantity, e.2.revenue)

/-- `top_selling_products` (data_processor.py:105-162): stable-sort the
product triples by total quantity descending and keep the first `n`. -/
def top_selling_products (tx : List Transaction) (n : ℕ) : List (Str × ℤ × ℚ) :=
  (List.mergeSort (productEntries tx) fun a b => decide (b.2.1 ≤ a.2.1)).take n

/-- `low_performing_products` (data_processor.py:369-426): keep the
product triples with total quantity strictly below `threshold`, sorted
by quantity ascending. -/
def low_performing_products (tx : List Transaction) (threshold : ℤ) :
    List (Str × ℤ × ℚ) :=
  List.mergeSort
    (((productGroups tx).filter fun e => e.2.quantity < threshold).map
      fun e => (e.1, e.2.quantity, e.2.revenue))
    fun a b => decide (a.2.1 ≤ b.2.1)

/-- The per-date accumulator dict of data_processor.py:296-310 (the
`customers` set is modelled as a duplicate-free insertion list; only
its size is ever read). -/
structure DayAcc where
  revenue : ℚ
  transaction_count : ℕ
  customers : List Str
deriving DecidableEq

/-- A finished entry of the `daily_sales_trend` result. -/
structure DayStats where
  revenue : ℚ
  transaction_count : ℕ
  unique_customers : ℕ
deriving DecidableEq

/-- `set.add`: insert a customer id unless already present. -/
def addCustomer (c : Str) (l : List Str) : List Str :=
  if c ∈ l then l else l ++ [c]

/-- The grouping loop of `daily_sales_trend` (data_processor.py:285-310). -/
def dailyGroups (tx : List Transaction) : List (Str × DayAcc) :=
  groupFold (fun t => t.Date) { revenue := 0, transaction_count := 0, customers := [] }
    (fun t d => { revenue := d.revenue + amount t,
                  transaction_count := d.transaction_count + 1,
                  customers := addCustomer t.CustomerID d.customers }) tx

/-- `daily_sales_trend` (data_processor.py:252-329): group by date,
count the distinct customers, sort by the date string ascending. -/
def daily_sales_trend (tx : List Transaction) : List (Str × DayStats) :=
  let result := (dailyGroups tx).map fun e =>
    (e.1, DayStats.mk e.2.revenue e.2.transaction_count e.2.customers.length)
  result.mergeSort fun a b => strLe a.1 b.1

/-- One step of the peak-day scan (data_processor.py:355-361): replace
the running best only on a strictly larger revenue. -/
def peakStep (acc : Option Str × ℚ × ℕ) (e : Str × DayStats) :
    Option Str × ℚ × ℕ :=
  if acc.2.1 < e.2.revenue then (some e.1, e.2.revenue, e.2.transaction_count)
  else acc

/-- `find_peak_sales_day` (data_processor.py:332-364): scan the daily
trend starting from the sentinel `(None, 0.0, 0)`. -/
def find_peak_sales_day (tx : List Transaction) : Option Str × ℚ × ℕ :=
  (daily_sales_trend tx).foldl peakStep (none, 0, 0)

/-! ## Enrichment Merger (`enrich_sales_data`, api_handler.py:147-239) -/

/-- The value side of the product-metadata mapping
(`create_product_mapping`, api_handler.py:104-142; the `title` field is
never read by the merger and is omitted). -/
structure ProductInfo where
  category : Str
  brand : Str
  rating : ℚ
deriving DecidableEq

/-- Dict lookup `numeric_id in product_mapping` /
`product_mapping[numeric_id]` over the association-list model. -/
def lookupId (k : ℤ) (m : List (ℤ × ProductInfo)) : Option ProductInfo :=
  (m.find? fun e => e.1 == k).map fun e => e.2

/-- An enriched record: the original transaction plus the four API
fields added by the merger. -/
structure EnrichedTransaction where
  base : Transaction
  API_Category : Option Str
  API_Brand : Option Str
  API_Rating : Option ℚ
  API_Match : Bool
deriving DecidableEq

/-- The loop body of `enrich_sales_data` (api_handler.py:186-236): take
the characters of `ProductID` after the first (`product_id_str[1:]`),
convert with `int(...)`, look the id up; every failure path produces
the unmatched representation. -/
def enrichOne (m : List (ℤ × ProductInfo)) (t : Transaction) : EnrichedTransaction :=
  match pyInt (t.ProductID.drop 1) with
  | some numeric_id =>
    match lookupId numeric_id m with
    | some info =>
      { base := t, API_Category := some info.category,
        API_Brand := some info.brand, API_Rating := some info.rating,
        API_Match := true }
    | none =>
      { base := t, API_Category := none, API_Brand := none,
        API_Rating := none, API_Match := false }
  | none =>
    { base := t, API_Category := none, API_Brand := none,
      API_Rating := none, API_Match := false }

/-- `enrich_sales_data` (api_handler.py:147-239): one output record is
appended per input record, in input order. -/
def enrich_sales_data : List Transaction → List (ℤ × ProductInfo) →
    List EnrichedTransaction
  | [], _ => []
  | t :: ts, m => enrichOne m t :: enrich_sales_data ts m

/-! ## Specification-side predicates

`regionPass`/`amountPass` state, per record, what the two optional
filter stages keep; they are used to characterise the staged filtering
of `validate_and_filter` as a single filter. -/

/-- A record survives the region stage: either no truthy region filter
was supplied, or the region matches exactly. -/
def regionPass (region : Option Str) (t : Transaction) : Bool :=
  !truthyStr region || (t.Region == region.getD [])

/-- A record survives the amount stage: each truthy bound is satisfied,
the two bounds being checked independently. -/
def amountPass (mn mx : Option ℚ) (t : Transaction) : Bool :=
  (!truthyNum mn || decide (mn.getD 0 ≤ amount t)) &&
  (!truthyNum mx || decide (amount t ≤ mx.getD 0))

/-! ## Lemmas about the validator/filter -/

theorem validateAll_fst : ∀ tx : List Transaction,
    (validateAll tx).1 = tx.filter isValid
  | [] => rfl
  | t :: ts => by
    simp only [validateAll, List.filter_cons]
    by_cases h : isValid t <;> simp [h, validateAll_fst ts]

theorem validateAll_len : ∀ tx : List Transaction,
    (validateAll tx).2 + (validateAll tx).1.length = tx.length
  | [] => rfl
  | t :: ts => by
    have ih := validateAll_len ts
    simp only [validateAll]
    by_cases h : isValid t <;> simp [h] <;> omega

theorem bool_imp_iff (b : Bool) (p : Prop) [Decidable p] :
    ((!b || decide p) = true) ↔ (b = true → p) := by
  cases b <;> simp

theorem bool_false_or_iff (b : Bool) (p : Prop) : (b = false ∨ p) ↔ (b = true → p) := by
  cases b <;> simp

theorem amountPass_of_falsy (mn mx : Option ℚ) (t : Transaction)
    (h : (truthyNum mn || truthyNum mx) = false) : amountPass mn mx t = true := by
  rcases Bool.or_eq_false_iff.mp h with ⟨h1, h2⟩
  simp [amountPass, h1, h2]

theorem regionPass_of_falsy (region : Option Str) (t : Transaction)
    (h : truthyStr region = false) : regionPass region t = true := by
  simp [regionPass, h]

theorem passesAmount_eq (mn mx : Option ℚ) (t : Transaction) :
    passesAmount mn mx t = amountPass mn mx t := by
  unfold passesAmount amountPass
  dsimp only
  split_ifs with hA hB
  · rcases Bool.and_eq_true_iff.mp hA with ⟨h1, h2⟩
    have hlt : amount t < mn.getD 0 := of_decide_eq_true h2
    simp [h1, not_le.mpr hlt]
  · rcases Bool.and_eq_true_iff.mp hB with ⟨h2, h3⟩
    have hlt : mx.getD 0 < amount t := of_decide_eq_true h3
    simp [h2, not_le.mpr hlt]
  · have c1 : (!truthyNum mn || decide (mn.getD 0 ≤ amount t)) = true := by
      cases h1 : truthyNum mn
      · simp
      · simp only [h1, Bool.true_and] at hA
        exact by simp [not_lt.mp fun hlt => hA (decide_eq_true hlt)]
    have c2 : (!truthyNum mx || decide (amount t ≤ mx.getD 0)) = true := by
      cases h2 : truthyNum mx
      · simp
      · simp only [h2, Bool.true_and] at hB
        exact by simp [not_lt.mp fun hlt => hB (decide_eq_true hlt)]
    simp [c1, c2]

/-- The two staged filters of `validate_and_filter` compose into a
single filter over the input. -/
theorem cleaned_eq (tx : List Transaction) (region : Option Str)
    (mn mx : Option ℚ) :
    (validate_and_filter tx region mn mx).1
      = tx.filter fun t => isValid t && regionPass region t && amountPass mn mx t := by
  unfold validate_and_filter
  dsimp only
  by_cases hr : truthyStr region <;> by_cases ha : (truthyNum mn || truthyNum mx) = true
  · rw [if_pos hr, if_pos ha]
    dsimp only
    rw [validateAll_fst, List.filter_filter, List.filter_filter]
    refine List.filter_congr fun t _ => ?_
    rw [passesAmount_eq]
    cases h1 : isValid t <;> cases h2 : (t.Region == region.getD []) <;>
      cases h3 : amountPass mn mx t <;> simp [regionPass, hr, h1, h2, h3]
  · rw [if_pos hr, if_neg ha]
    dsimp only
    rw [validateAll_fst, List.filter_filter]
    refine List.filter_congr fun t _ => ?_
    have hap := amountPass_of_falsy mn mx t (by simpa using ha)
    cases h1 : isValid t <;> cases h2 : (t.Region == region.getD []) <;>
      simp [regionPass, hr, h1, h2, hap]
  · rw [if_neg hr, if_pos ha]
    dsimp only
    rw [validateAll_fst, List.filter_filter]
    refine List.filter_congr fun t _ => ?_
    rw [passesAmount_eq]
    have hrp := regionPass_of_falsy region t (by simpa using hr)
    cases h1 : isValid t <;> cases h3 : amountPass mn mx t <;> simp [hrp, h1, h3]
  · rw [if_neg hr, if_neg ha]
    dsimp only
    rw [validateAll_fst]
    refine List.filter_congr fun t _ => ?_
    have hap := amountPass_of_falsy mn mx t (by simpa using ha)
    have hrp := regionPass_of_falsy region t (by simpa using hr)
    simp [hrp, hap]

/-! ## Concrete records used by counterexamples and witnesses -/

/-- A valid transaction in region North, amount 10. -/
def tNorth : Transaction :=
  { TransactionID := "T1".toList, Date := "2024-12-01".toList,
    ProductID := "P1".toList, ProductName := "Widget".toList,
    Quantity := 1, UnitPrice := 10, CustomerID := "C1".toList,
    Region := "North".toList }

/-- A valid transaction in region South, amount 10. -/
def tSouth : Transaction :=
  { TransactionID := "T2".toList, Date := "2024-12-01".toList,
    ProductID := "P2".toList, ProductName := "Gadget".toList,
    Quantity := 1, UnitPrice := 10, CustomerID := "C2".toList,
    Region := "South".toList }

/-! ## Claim C3 -/

/-- Claim C3: with no filters supplied, `validate_and_filter` partitions
its input — the invalid count plus the length of the cleaned list
equals the length of the input list. -/
theorem C3_partition (tx : List Transaction) :
    (validate_and_filter tx none none none).2.1
      + (validate_and_filter tx none none none).1.length = tx.length := by
  unfold validate_and_filter
  dsimp only
  rw [if_neg (by decide), if_neg (by decide)]
  exact validateAll_len tx

/-! ## Claim C9 -/

/-- Claim C9: for every input and every filter combination, the cleaned
list returned by `validate_and_filter` is an order-preserving
subsequence of the input, each kept record being the input record
itself (no field is modified). -/
theorem C9_cleaned_sublist (tx : List Transaction) (region : Option Str)
    (mn mx : Option ℚ) :
    List.Sublist (validate_and_filter tx region mn mx).1 tx := by
  rw [cleaned_eq]
  exact List.filter_sublist tx

/-! ## Claim C2 -/

/-- Claim C2 counterexample: with a supplied `max_amount = 0`, the
record of amount 10 is kept even though its amount is not `≤ 0` — a
supplied zero bound is not enforced, refuting the claim as stated. -/
theorem C2_counterexample :
    (validate_and_filter [tNorth] none none (some 0)).1 = [tNorth] ∧
      ¬(amount tNorth ≤ (0 : ℚ)) := by
  constructor
  · decide
  · simp [amount, tNorth]

/-- Claim C2 (amended): a cleaned record is kept exactly when it is a
valid input record that passes the region stage and satisfies every
*truthy* bound (`min_amount`/`max_amount` supplied and nonzero), the
two bounds being checked independently; a supplied bound equal to 0 is
treated as absent. -/
theorem C2_amended (tx : List Transaction) (region : Option Str)
    (mn mx : Option ℚ) (t : Transaction) :
    t ∈ (validate_and_filter tx region mn mx).1 ↔
      t ∈ tx ∧ isValid t = true ∧ regionPass region t = true ∧
        (truthyNum mn = true → mn.getD 0 ≤ amount t) ∧
        (truthyNum mx = true → amount t ≤ mx.getD 0) := by
  rw [cleaned_eq, List.mem_filter]
  simp [amountPass, Bool.and_eq_true_iff, bool_imp_iff, bool_false_or_iff, and_assoc]

/-- Witness for claim C2 (amended), at a concrete record and a supplied
zero max bound. -/
theorem C2_amended_witness :
    tNorth ∈ (validate_and_filter [tNorth] none none (some 0)).1 ↔
      tNorth ∈ [tNorth] ∧ isValid tNorth = true ∧ regionPass none tNorth = true ∧
        (truthyNum none = true → (none : Option ℚ).getD 0 ≤ amount tNorth) ∧
        (truthyNum (some 0) = true → amount tNorth ≤ (some (0 : ℚ)).getD 0) :=
  C2_amended [tNorth] none none (some 0) tNorth

/-! ## Claim C1 -/

/-- Claim C1 counterexample: two valid records, region filter "South",
no amount filter.  The summary records `filtered_by_region = 1` but
`filtered_by_amount = 2` (the count from *before* the region stage), so
the claimed chain `final ≤ amount ≤ region` and the pass-through
equality both fail. -/
theorem C1_counterexample :
    ¬(((validate_and_filter [tNorth, tSouth] (some "South".toList) none none).2.2.final_count
        ≤ (validate_and_filter [tNorth, tSouth] (some "South".toList) none none).2.2.filtered_by_amount) ∧
      ((validate_and_filter [tNorth, tSouth] (some "South".toList) none none).2.2.filtered_by_amount
        ≤ (validate_and_filter [tNorth, tSouth] (some "South".toList) none none).2.2.filtered_by_region) ∧
      ((validate_and_filter [tNorth, tSouth] (some "South".toList) none none).2.2.filtered_by_amount
        = (validate_and_filter [tNorth, tSouth] (some "South".toList) none none).2.2.filtered_by_region)) := by
  decide

/-- Claim C1 (amended): the summary counters satisfy
`final ≤ filtered_by_amount`, `final ≤ filtered_by_region ≤ total − invalid`
and `filtered_by_amount ≤ total − invalid`; `filtered_by_amount ≤
filtered_by_region` holds whenever the amount stage actually runs; and
when a stage does not run its counter equals the *validated* count
`total − invalid` (for the amount stage this is not the previous
stage's count: the counter is initialised before the region filter). -/
theorem C1_amended (tx : List Transaction) (region : Option Str)
    (mn mx : Option ℚ) :
    let s := (validate_and_filter tx region mn mx).2.2
    s.invalid ≤ s.total_input ∧
    s.final_count ≤ s.filtered_by_amount ∧
    s.final_count ≤ s.filtered_by_region ∧
    s.filtered_by_region ≤ s.total_input - s.invalid ∧
    s.filtered_by_amount ≤ s.total_input - s.invalid ∧
    ((truthyNum mn || truthyNum mx) = true →
      s.filtered_by_amount ≤ s.filtered_by_region ∧
      s.final_count = s.filtered_by_amount) ∧
    ((truthyNum mn || truthyNum mx) = false →
      s.final_count = s.filtered_by_region ∧
      s.filtered_by_amount = s.total_input - s.invalid) ∧
    (truthyStr region = false → s.filtered_by_region = s.total_input - s.invalid) := by
  have hlen := validateAll_len tx
  unfold validate_and_filter
  dsimp only
  by_cases hr : truthyStr region <;> by_cases ha : (truthyNum mn || truthyNum mx) = true
  · rw [if_pos hr, if_pos ha]
    dsimp only
    have k1 := List.length_filter_le (fun t => t.Region == region.getD [])
      (validateAll tx).1
    have k2 := List.length_filter_le (passesAmount mn mx)
      ((validateAll tx).1.filter fun t => t.Region == region.getD [])
    exact ⟨by omega, le_refl _, by omega, by omega, by omega,
      fun _ => ⟨by omega, rfl⟩, fun h => by simp [h] at ha,
      fun h => by simp [h] at hr⟩
  · rw [if_pos hr, if_neg ha]
    dsimp only
    have k1 := List.length_filter_le (fun t => t.Region == region.getD [])
      (validateAll tx).1
    exact ⟨by omega, by omega, le_refl _, by omega, by omega,
      fun h => absurd h ha, fun _ => ⟨rfl, by omega⟩,
      fun h => by simp [h] at hr⟩
  · rw [if_neg hr, if_pos ha]
    dsimp only
    have k2 := List.length_filter_le (passesAmount mn mx) (validateAll tx).1
    exact ⟨by omega, le_refl _, by omega, by omega, by omega,
      fun _ => ⟨by omega, rfl⟩, fun h => by simp [h] at ha,
      fun _ => by omega⟩
  · rw [if_neg hr, if_neg ha]
    dsimp only
    exact ⟨by omega, le_refl _, le_refl _, by omega, by omega,
      fun h => absurd h ha, fun _ => ⟨rfl, by omega⟩, fun _ => by omega⟩

/-- Witness for claim C1 (amended): the amended inequalities evaluated
on the counterexample input, with the region filter applied and the
amount stage skipped. -/
theorem C1_amended_witness :
    (validate_and_filter [tNorth, tSouth] (some "South".toList) none none).2.2.final_count
      = (validate_and_filter [tNorth, tSouth] (some "South".toList) none none).2.2.filtered_by_region ∧
    (validate_and_filter [tNorth, tSouth] (some "South".toList) none none).2.2.filtered_by_amount
      = (validate_and_filter [tNorth, tSouth] (some "South".toList) none none).2.2.total_input
        - (validate_and_filter [tNorth, tSouth] (some "South".toList) none none).2.2.invalid :=
  (C1_amended [tNorth, tSouth] (some "South".toList) none none).2.2.2.2.2.2.1 (by decide)

/-! ## Lemmas about the grouping dictionaries -/

theorem upsert_map_fst {K V : Type} [DecidableEq K] (k : K) (init : V) (f : V → V) :
    ∀ l : List (K × V), (upsert k init f l).map Prod.fst
      = if k ∈ l.map Prod.fst then l.map Prod.fst else l.map Prod.fst ++ [k]
  | [] => by simp [upsert]
  | e :: rest => by
    by_cases h : e.1 = k
    · simp [upsert, h]
    · rw [upsert, if_neg h]
      simp only [List.map_cons, upsert_map_fst k init f rest, List.mem_cons]
      have hne : ¬(k = e.1) := fun hh => h hh.symm
      by_cases h2 : k ∈ rest.map Prod.fst <;> simp [h2, hne]

theorem upsert_nodup_keys {K V : Type} [DecidableEq K] (k : K) (init : V)
    (f : V → V) (l : List (K × V)) (h : (l.map Prod.fst).Nodup) :
    ((upsert k init f l).map Prod.fst).Nodup := by
  rw [upsert_map_fst]
  by_cases h2 : k ∈ l.map Prod.fst
  · simpa [h2] using h
  · simp [h2, List.nodup_append, h]

theorem upsert_forall {K V : Type} [DecidableEq K] {P : V → Prop} (k : K)
    (init : V) (f : V → V) (hf : ∀ v, P v → P (f v)) (hinit : P (f init)) :
    ∀ l : List (K × V), (∀ e ∈ l, P e.2) → ∀ e ∈ upsert k init f l, P e.2
  | [], _, e, he => by
    rw [upsert] at he
    simp only [List.mem_singleton] at he
    simpa [he] using hinit
  | (k', v) :: rest, h, e, he => by
    rw [upsert] at he
    by_cases hk : k' = k
    · simp only [hk, if_pos rfl] at he
      rcases List.mem_cons.mp he with h1 | h1
    <;> first
      | exact h1 ▸ hf v (h (k', v) (List.mem_cons_self _ _))
      | exact h _ (List.mem_cons_of_mem _ h1)
    · simp only [if_neg hk] at he
      rcases List.mem_cons.mp he with h1 | h1
      · exact h1 ▸ h (k', v) (List.mem_cons_self _ _)
      · exact upsert_forall k init f hf hinit rest
          (fun x hx => h x (List.mem_cons_of_mem _ hx)) e h1

theorem upsert_ne_nil {K V : Type} [DecidableEq K] (k : K) (init : V)
    (f : V → V) (l : List (K × V)) : upsert k init f l ≠ [] := by
  cases l with
  | nil => simp [upsert]
  | cons e rest => by_cases h : e.1 = k <;> simp [upsert, h]

theorem upsert_sum {K V : Type} [DecidableEq K] (g : V → ℚ) (k : K) (init : V)
    (f : V → V) (δ : ℚ) (hf : ∀ v, g (f v) = g v + δ) (h0 : g init = 0) :
    ∀ l : List (K × V), ((upsert k init f l).map fun e => g e.2).sum
      = (l.map fun e => g e.2).sum + δ
  | [] => by simp [upsert, hf, h0]
  | (k', v) :: rest => by
    by_cases h : k' = k
    · subst h
      rw [upsert, if_pos rfl]
      simp only [List.map_cons, List.sum_cons, hf]
      ring
    · rw [upsert, if_neg h]
      simp only [List.map_cons, List.sum_cons,
        upsert_sum g k init f δ hf h0 rest]
      ring

theorem groupFold_acc_nodup {K V : Type} [DecidableEq K] (key : Transaction → K)
    (init : V) (upd : Transaction → V → V) :
    ∀ (tx : List Transaction) (acc : List (K × V)), (acc.map Prod.fst).Nodup →
      ((tx.foldl (fun acc t => upsert (key t) init (upd t) acc) acc).map Prod.fst).Nodup
  | [], _, h => h
  | t :: ts, acc, h =>
    groupFold_acc_nodup key init upd ts _ (upsert_nodup_keys _ _ _ _ h)

theorem groupFold_nodup {K V : Type} [DecidableEq K] (key : Transaction → K)
    (init : V) (upd : Transaction → V → V) (tx : List Transaction) :
    ((groupFold key init upd tx).map Prod.fst).Nodup :=
  groupFold_acc_nodup key init upd tx [] (by simp)

theorem groupFold_acc_forall {K V : Type} [DecidableEq K] {P : V → Prop}
    (key : Transaction → K) (init : V) (upd : Transaction → V → V)
    (hf : ∀ t : Transaction, ∀ v, P v → P (upd t v))
    (hinit : ∀ t : Transaction, P (upd t init)) :
    ∀ (tx : List Transaction) (acc : List (K × V)), (∀ e ∈ acc, P e.2) →
      ∀ e ∈ tx.foldl (fun acc t => upsert (key t) init (upd t) acc) acc, P e.2
  | [], _, h => h
  | t :: ts, acc, h =>
    groupFold_acc_forall key init upd hf hinit ts _
      (upsert_forall (key t) init (upd t) (hf t) (hinit t) acc h)

theorem groupFold_forall {K V : Type} [DecidableEq K] {P : V → Prop}
    (key : Transaction → K) (init : V) (upd : Transaction → V → V)
    (hf : ∀ t : Transaction, ∀ v, P v → P (upd t v))
    (hinit : ∀ t : Transaction, P (upd t init)) (tx : List Transaction) :
    ∀ e ∈ groupFold key init upd tx, P e.2 :=
  groupFold_acc_forall key init upd hf hinit tx [] (by simp)

theorem groupFold_acc_sum {K V : Type} [DecidableEq K] (g : V → ℚ)
    (key : Transaction → K) (init : V) (upd : Transaction → V → V)
    (δ : Transaction → ℚ) (hf : ∀ t v, g (upd t v) = g v + δ t) (h0 : g init = 0) :
    ∀ (tx : List Transaction) (acc : List (K × V)),
      ((tx.foldl (fun acc t => upsert (key t) init (upd t) acc) acc).map
          fun e => g e.2).sum
        = (acc.map fun e => g e.2).sum + (tx.map δ).sum
  | [], acc => by simp
  | t :: ts, acc => by
    simp only [List.foldl_cons, List.map_cons, List.sum_cons]
    rw [groupFold_acc_sum g key init upd δ hf h0 ts,
      upsert_sum g (key t) init (upd t) (δ t) (hf t) h0 acc]
    ring

theorem groupFold_sum {K V : Type} [DecidableEq K] (g : V → ℚ)
    (key : Transaction → K) (init : V) (upd : Transaction → V → V)
    (δ : Transaction → ℚ) (hf : ∀ t v, g (upd t v) = g v + δ t) (h0 : g init = 0)
    (tx : List Transaction) :
    ((groupFold key init upd tx).map fun e => g e.2).sum = (tx.map δ).sum := by
  have := groupFold_acc_sum g key init upd δ hf h0 tx []
  simpa [groupFold] using this

theorem groupFold_acc_ne_nil {K V : Type} [DecidableEq K] (key : Transaction → K)
    (init : V) (upd : Transaction → V → V) :
    ∀ (tx : List Transaction) (acc : List (K × V)), acc ≠ [] →
      tx.foldl (fun acc t => upsert (key t) init (upd t) acc) acc ≠ []
  | [], _, h => h
  | t :: ts, acc, _ =>
    groupFold_acc_ne_nil key init upd ts _ (upsert_ne_nil _ _ _ _)

theorem groupFold_ne_nil {K V : Type} [DecidableEq K] (key : Transaction → K)
    (init : V) (upd : Transaction → V → V) (tx : List Transaction) (h : tx ≠ []) :
    groupFold key init upd tx ≠ [] := by
  cases tx with
  | nil => exact absurd rfl h
  | cons t ts =>
    exact groupFold_acc_ne_nil key init upd ts _ (upsert_ne_nil _ _ _ _)

/-! ## Lemmas about revenue and rounding -/

theorem revenue_foldl : ∀ (tx : List Transaction) (c : ℚ),
    tx.foldl (fun acc t => acc + amount t) c = c + (tx.map amount).sum
  | [], c => by simp
  | t :: ts, c => by
    simp only [List.foldl_cons, List.map_cons, List.sum_cons]
    rw [revenue_foldl ts]
    ring

theorem calculate_total_revenue_eq (tx : List Transaction) :
    calculate_total_revenue tx = (tx.map amount).sum := by
  unfold calculate_total_revenue
  rw [revenue_foldl]
  ring

theorem regionGroups_sum (tx : List Transaction) :
    ((regionGroups tx).map fun e => e.2.total_sales).sum
      = calculate_total_revenue tx := by
  rw [calculate_total_revenue_eq]
  exact groupFold_sum RegionAcc.total_sales _ _ _ amount (fun t v => rfl) rfl tx

theorem roundHalfEven_close (y : ℚ) : |(roundHalfEven y : ℚ) - y| ≤ 1/2 := by
  have h0 : (⌊y⌋ : ℚ) ≤ y := Int.floor_le y
  have h1 : y < (⌊y⌋ : ℚ) + 1 := Int.lt_floor_add_one y
  unfold roundHalfEven
  split_ifs with hA hB hC
  · rw [abs_sub_comm, abs_of_nonneg (by linarith)]
    linarith
  · push_cast
    rw [abs_of_nonneg (by linarith)]
    linarith
  · have heq : y - ⌊y⌋ = 1/2 := le_antisymm (not_lt.mp hB) (not_lt.mp hA)
    rw [abs_sub_comm, abs_of_nonneg (by linarith)]
    linarith
  · have heq : y - ⌊y⌋ = 1/2 := le_antisymm (not_lt.mp hB) (not_lt.mp hA)
    push_cast
    rw [abs_of_nonneg (by linarith)]
    linarith

theorem round2_close (x : ℚ) : |round2 x - x| ≤ 1/200 := by
  unfold round2
  have h := roundHalfEven_close (x * 100)
  have heq : (roundHalfEven (x * 100) : ℚ)/100 - x
      = ((roundHalfEven (x * 100) : ℚ) - x * 100) / 100 := by ring
  rw [heq, abs_div]
  rw [abs_of_pos (by norm_num : (0:ℚ) < 100)]
  linarith

theorem sum_round2_close : ∀ ps : List ℚ,
    |(ps.map round2).sum - ps.sum| ≤ ps.length * (1/200)
  | [] => by simp
  | p :: ps => by
    have ih := sum_round2_close ps
    have h := round2_close p
    simp only [List.map_cons, List.sum_cons, List.length_cons]
    have heq : round2 p + (ps.map round2).sum - (p + ps.sum)
        = (round2 p - p) + ((ps.map round2).sum - ps.sum) := by ring
    rw [heq]
    have hb : |(round2 p - p) + ((ps.map round2).sum - ps.sum)|
        ≤ 1/200 + ps.length * (1/200) :=
      le_trans (abs_add _ _) (add_le_add h ih)
    push_cast
    linarith

theorem sum_map_mul (c : ℚ) : ∀ l : List ℚ,
    (l.map fun x => x * c).sum = l.sum * c
  | [] => by simp
  | x :: xs => by
    simp only [List.map_cons, List.sum_cons, sum_map_mul c xs]
    ring

theorem round2_zero : round2 0 = 0 := by
  unfold round2 roundHalfEven
  norm_num

/-! ## Claim C4 -/

/-- Claim C4 (amended): when total revenue is positive, every
percentage in `region_wise_sales` equals
`round2(total_sales / total_revenue * 100)` and the rounded
percentages sum to 100 within ±(1/200 per region) — but not within the
claimed ±0.01 once there are more than two regions; when total revenue
is 0 every percentage is 0. -/
theorem C4_amended (tx : List Transaction) :
    (0 < calculate_total_revenue tx →
      (∀ e ∈ region_wise_sales tx,
        e.2.percentage = round2 (e.2.total_sales / calculate_total_revenue tx * 100)) ∧
      |((region_wise_sales tx).map fun e => e.2.percentage).sum - 100|
        ≤ (region_wise_sales tx).length * (1 / 200)) ∧
    (calculate_total_revenue tx = 0 →
      ∀ e ∈ region_wise_sales tx, e.2.percentage = 0) := by
  unfold region_wise_sales
  dsimp only
  refine ⟨fun hpos => ⟨fun e he => ?_, ?_⟩, fun h0 e he => ?_⟩
  · have he2 := (List.mergeSort_perm _ _).mem_iff.mp he
    rcases List.mem_map.mp he2 with ⟨g, hg, rfl⟩
    dsimp only
    rw [if_pos hpos]
  · rw [((List.mergeSort_perm _ _).map _).sum_eq, List.length_mergeSort]
    simp only [List.map_map, List.length_map, Function.comp_def, if_pos hpos]
    have hrw : ((regionGroups tx).map fun g =>
          round2 (g.2.total_sales / calculate_total_revenue tx * 100))
        = ((regionGroups tx).map fun g =>
            g.2.total_sales / calculate_total_revenue tx * 100).map round2 := by
      rw [List.map_map]
      rfl
    have hsum : ((regionGroups tx).map fun g =>
          g.2.total_sales / calculate_total_revenue tx * 100).sum = 100 := by
      have h1 : ((regionGroups tx).map fun g =>
            g.2.total_sales / calculate_total_revenue tx * 100)
          = ((regionGroups tx).map fun g => g.2.total_sales).map
              fun x => x * (100 / calculate_total_revenue tx) := by
        rw [List.map_map]
        refine List.map_congr_left fun g _ => ?_
        field_simp
      rw [h1, sum_map_mul, regionGroups_sum]
      field_simp
    have hb := sum_round2_close ((regionGroups tx).map fun g =>
      g.2.total_sales / calculate_total_revenue tx * 100)
    rw [hrw]
    rw [hsum] at hb
    simpa [List.length_map] using hb
  · have he2 := (List.mergeSort_perm _ _).mem_iff.mp he
    rcases List.mem_map.mp he2 with ⟨g, hg, rfl⟩
    dsimp only
    rw [if_neg (by rw [h0]; exact lt_irrefl 0), round2_zero]

/-- Witness for claim C4 (amended), on a one-record input with positive
total revenue. -/
theorem C4_amended_witness :
    |((region_wise_sales [tNorth]).map fun e => e.2.percentage).sum - 100|
      ≤ (region_wise_sales [tNorth]).length * (1 / 200) :=
  ((C4_amended [tNorth]).1
    (by norm_num [calculate_total_revenue, amount, tNorth])).2

/-- Four valid one-item transactions in four distinct regions whose
amounts are 25005, 25005, 25005 and 24985 (total 100000), so the four
region shares are 25.005%, 25.005%, 25.005% and 24.985%. -/
def tP1 : Transaction :=
  { TransactionID := "T1".toList, Date := "2024-12-01".toList,
    ProductID := "P1".toList, ProductName := "A".toList,
    Quantity := 1, UnitPrice := 25005, CustomerID := "C1".toList,
    Region := "R1".toList }

/-- Second record of the percentage counterexample (region R2). -/
def tP2 : Transaction :=
  { TransactionID := "T2".toList, Date := "2024-12-01".toList,
    ProductID := "P2".toList, ProductName := "B".toList,
    Quantity := 1, UnitPrice := 25005, CustomerID := "C2".toList,
    Region := "R2".toList }

/-- Third record of the percentage counterexample (region R3). -/
def tP3 : Transaction :=
  { TransactionID := "T3".toList, Date := "2024-12-01".toList,
    ProductID := "P3".toList, ProductName := "D".toList,
    Quantity := 1, UnitPrice := 25005, CustomerID := "C3".toList,
    Region := "R3".toList }

/-- Fourth record of the percentage counterexample (region R4). -/
def tP4 : Transaction :=
  { TransactionID := "T4".toList, Date := "2024-12-01".toList,
    ProductID := "P4".toList, ProductName := "E".toList,
    Quantity := 1, UnitPrice := 24985, CustomerID := "C4".toList,
    Region := "R4".toList }

/-- The percentage counterexample input. -/
def txPct : List Transaction := [tP1, tP2, tP3, tP4]

/-- Claim C4 counterexample: with four regions at shares 25.005%,
25.005%, 25.005% and 24.985% (total revenue 100000 > 0), the rounded
percentages are 25.00, 25.00, 25.00 and 24.98, summing to 99.98 — off
from 100 by 0.02, outside the claimed ±0.01. -/
theorem C4_counterexample :
    0 < calculate_total_revenue txPct ∧
    ¬(|((region_wise_sales txPct).map fun e => e.2.percentage).sum - 100|
        ≤ 1/100) := by
  have htot : calculate_total_revenue txPct = 100000 := by
    norm_num [calculate_total_revenue, txPct, amount, tP1, tP2, tP3, tP4]
  have hg : regionGroups txPct =
      [("R1".toList, ⟨25005, 1⟩), ("R2".toList, ⟨25005, 1⟩),
       ("R3".toList, ⟨25005, 1⟩), ("R4".toList, ⟨24985, 1⟩)] := by
    norm_num [regionGroups, groupFold, upsert, amount, txPct, tP1, tP2, tP3, tP4]
    decide
  refine ⟨by rw [htot]; norm_num, ?_⟩
  unfold region_wise_sales
  dsimp only
  rw [((List.mergeSort_perm _ _).map _).sum_eq, List.map_map]
  simp only [Function.comp_def]
  rw [hg, htot]
  have r1 : round2 ((25005:ℚ)/100000 * 100) = 25 := by
    norm_num [round2, roundHalfEven]
  have r2 : round2 ((24985:ℚ)/100000 * 100) = 2498/100 := by
    norm_num [round2, roundHalfEven]
  have hc : (0:ℚ) < 100000 := by norm_num
  simp only [List.map_cons, List.map_nil, List.sum_cons, List.sum_nil, hc,
    if_true, r1, r2]
  intro hcon
  rw [show (25:ℚ) + (25 + (25 + (2498/100 + 0))) - 100 = -(1/50) from by
    norm_num] at hcon
  rw [abs_neg, abs_of_nonneg (by norm_num : (0:ℚ) ≤ 1/50)] at hcon
  norm_num at hcon

/-! ## Lemmas about the lexicographic string order -/

theorem strLe_refl : ∀ a : Str, strLe a a = true
  | [] => rfl
  | c :: cs => by simp [strLe, lt_irrefl, strLe_refl cs]

theorem strLe_total : ∀ a b : Str, strLe a b = true ∨ strLe b a = true
  | [], _ => Or.inl rfl
  | _ :: _, [] => Or.inr rfl
  | a :: as, b :: bs => by
    rcases lt_trichotomy a b with h | h | h
    · exact Or.inl (by simp [strLe, h])
    · subst h
      rcases strLe_total as bs with h2 | h2
      · exact Or.inl (by simp [strLe, lt_irrefl, h2])
      · exact Or.inr (by simp [strLe, lt_irrefl, h2])
    · exact Or.inr (by simp [strLe, h])

theorem strLe_trans : ∀ a b c : Str,
    strLe a b = true → strLe b c = true → strLe a c = true
  | [], _, _, _, _ => rfl
  | a :: as, [], _, hab, _ => by simp [strLe] at hab
  | _ :: _, _ :: _, [], _, hbc => by simp [strLe] at hbc
  | a :: as, b :: bs, c :: cs, hab, hbc => by
    simp only [strLe] at hab hbc ⊢
    rcases lt_trichotomy a b with h1 | h1 | h1
    · rcases lt_trichotomy b c with h2 | h2 | h2
      · simp [lt_trans h1 h2]
      · subst h2
        simp [h1]
      · rw [if_neg (asymm h2), if_pos h2] at hbc
        exact absurd hbc (by simp)
    · subst h1
      rcases lt_trichotomy a c with h2 | h2 | h2
      · simp [h2]
      · subst h2
        rw [if_neg (lt_irrefl a), if_neg (lt_irrefl a)] at hab hbc ⊢
        exact strLe_trans as bs cs hab hbc
      · rw [if_neg (asymm h2), if_pos h2] at hbc
        exact absurd hbc (by simp)
    · rw [if_neg (asymm h1), if_pos h1] at hab
      exact absurd hab (by simp)

/-! ## Lemmas about the daily trend and the peak-day scan -/

theorem groupFold_acc_forall_mem {K V : Type} [DecidableEq K] {P : V → Prop}
    (key : Transaction → K) (init : V) (upd : Transaction → V → V) :
    ∀ (tx : List Transaction) (acc : List (K × V)),
      (∀ t ∈ tx, ∀ v, P v → P (upd t v)) → (∀ t ∈ tx, P (upd t init)) →
      (∀ e ∈ acc, P e.2) →
      ∀ e ∈ tx.foldl (fun acc t => upsert (key t) init (upd t) acc) acc, P e.2
  | [], _, _, _, h => h
  | t :: ts, acc, hf, hinit, h =>
    groupFold_acc_forall_mem key init upd ts _
      (fun x hx => hf x (List.mem_cons_of_mem _ hx))
      (fun x hx => hinit x (List.mem_cons_of_mem _ hx))
      (upsert_forall (key t) init (upd t)
        (hf t (List.mem_cons_self _ _))
        (hinit t (List.mem_cons_self _ _)) acc h)

theorem groupFold_forall_mem {K V : Type} [DecidableEq K] {P : V → Prop}
    (key : Transaction → K) (init : V) (upd : Transaction → V → V)
    (tx : List Transaction) (hf : ∀ t ∈ tx, ∀ v, P v → P (upd t v))
    (hinit : ∀ t ∈ tx, P (upd t init)) :
    ∀ e ∈ groupFold key init upd tx, P e.2 :=
  groupFold_acc_forall_mem key init upd tx [] hf hinit (by simp)

theorem amount_pos (t : Transaction) (h : isValid t = true) : 0 < amount t := by
  simp only [isValid, Bool.and_eq_true_iff, Bool.not_eq_true',
    decide_eq_false_iff_not, not_le] at h
  have hq := h.1.1.1.1.1.1
  have hp := h.1.1.1.1.1.2
  unfold amount
  have hq2 : (0:ℚ) < (t.Quantity : ℚ) := by exact_mod_cast hq
  exact mul_pos hq2 hp

theorem trend_rev_pos (tx : List Transaction)
    (hv : ∀ t ∈ tx, isValid t = true) :
    ∀ e ∈ daily_sales_trend tx, 0 < e.2.revenue := by
  intro e he
  have hg : ∀ g ∈ dailyGroups tx, 0 < g.2.revenue := by
    refine groupFold_forall_mem (P := fun v : DayAcc => 0 < v.revenue) _ _ _ tx
      (fun t ht v hvp => ?_) (fun t ht => ?_)
    · exact add_pos hvp (amount_pos t (hv t ht))
    · simpa using amount_pos t (hv t ht)
  unfold daily_sales_trend at he
  dsimp only at he
  have he2 := (List.mergeSort_perm _ _).mem_iff.mp he
  rcases List.mem_map.mp he2 with ⟨g, hgm, rfl⟩
  exact hg g hgm

theorem trend_sorted (tx : List Transaction) :
    (daily_sales_trend tx).Pairwise fun a b => strLe a.1 b.1 = true := by
  unfold daily_sales_trend
  dsimp only
  exact List.sorted_mergeSort
    (fun (a b c : Str × DayStats) hab hbc => strLe_trans a.1 b.1 c.1 hab hbc)
    (fun (a b : Str × DayStats) => Bool.or_eq_true_iff.mpr (strLe_total a.1 b.1)) _

theorem trend_keys_nodup (tx : List Transaction) :
    ((daily_sales_trend tx).map Prod.fst).Nodup := by
  have h1 : ((dailyGroups tx).map Prod.fst).Nodup := groupFold_nodup _ _ _ tx
  unfold daily_sales_trend
  dsimp only
  have hperm := (List.mergeSort_perm ((dailyGroups tx).map fun e =>
    (e.1, DayStats.mk e.2.revenue e.2.transaction_count e.2.customers.length))
    (fun a b => strLe a.1 b.1)).map Prod.fst
  refine List.Nodup.perm ?_ hperm.symm
  rw [List.map_map]
  exact h1

theorem trend_strict (tx : List Transaction) :
    (daily_sales_trend tx).Pairwise fun a b =>
      strLe a.1 b.1 = true ∧ a.1 ≠ b.1 := by
  have h1 := trend_sorted tx
  have h2 : (daily_sales_trend tx).Pairwise fun a b => a.1 ≠ b.1 := by
    have := trend_keys_nodup tx
    rw [List.Nodup, List.pairwise_map] at this
    exact this
  exact h1.and h2

theorem peak_foldl_acc_le : ∀ (es : List (Str × DayStats))
    (acc : Option Str × ℚ × ℕ), acc.2.1 ≤ (es.foldl peakStep acc).2.1
  | [], _ => le_refl _
  | e :: es, acc => by
    rw [List.foldl_cons]
    refine le_trans ?_ (peak_foldl_acc_le es (peakStep acc e))
    unfold peakStep
    split_ifs with h
    · exact le_of_lt h
    · exact le_refl _

theorem peak_foldl_ub : ∀ (es : List (Str × DayStats))
    (acc : Option Str × ℚ × ℕ), ∀ e ∈ es,
    e.2.revenue ≤ (es.foldl peakStep acc).2.1
  | e₀ :: es, acc, e, he => by
    rw [List.foldl_cons]
    rcases List.mem_cons.mp he with rfl | hmem
    · refine le_trans ?_ (peak_foldl_acc_le es (peakStep acc e))
      unfold peakStep
      split_ifs with h
      · exact le_refl _
      · exact not_lt.mp h
    · exact peak_foldl_ub es (peakStep acc e₀) e hmem

theorem peak_foldl_mem : ∀ (es : List (Str × DayStats))
    (acc : Option Str × ℚ × ℕ),
    es.foldl peakStep acc = acc ∨
      ∃ e ∈ es, es.foldl peakStep acc
        = (some e.1, e.2.revenue, e.2.transaction_count)
  | [], _ => Or.inl rfl
  | e₀ :: es, acc => by
    rw [List.foldl_cons]
    by_cases h : acc.2.1 < e₀.2.revenue
    · have hstep : peakStep acc e₀
          = (some e₀.1, e₀.2.revenue, e₀.2.transaction_count) := by
        unfold peakStep
        rw [if_pos h]
      rw [hstep]
      rcases peak_foldl_mem es (some e₀.1, e₀.2.revenue, e₀.2.transaction_count)
        with h2 | ⟨e, he, h2⟩
      · exact Or.inr ⟨e₀, List.mem_cons_self _ _, h2⟩
      · exact Or.inr ⟨e, List.mem_cons_of_mem _ he, h2⟩
    · have hstep : peakStep acc e₀ = acc := by
        unfold peakStep
        rw [if_neg h]
      rw [hstep]
      rcases peak_foldl_mem es acc with h2 | ⟨e, he, h2⟩
      · exact Or.inl h2
      · exact Or.inr ⟨e, List.mem_cons_of_mem _ he, h2⟩

theorem peak_foldl_eq_or_gt : ∀ (es : List (Str × DayStats))
    (acc : Option Str × ℚ × ℕ),
    es.foldl peakStep acc = acc ∨ acc.2.1 < (es.foldl peakStep acc).2.1
  | [], _ => Or.inl rfl
  | e₀ :: es, acc => by
    rw [List.foldl_cons]
    by_cases h : acc.2.1 < e₀.2.revenue
    · have hstep : peakStep acc e₀
          = (some e₀.1, e₀.2.revenue, e₀.2.transaction_count) := by
        unfold peakStep
        rw [if_pos h]
      rw [hstep]
      refine Or.inr (lt_of_lt_of_le h ?_)
      have := peak_foldl_acc_le es
        (some e₀.1, e₀.2.revenue, e₀.2.transaction_count)
      simpa using this
    · have hstep : peakStep acc e₀ = acc := by
        unfold peakStep
        rw [if_neg h]
      rw [hstep]
      exact peak_foldl_eq_or_gt es acc

theorem peak_foldl_first : ∀ (es : List (Str × DayStats))
    (acc : Option Str × ℚ × ℕ),
    (es.Pairwise fun a b => strLe a.1 b.1 = true ∧ a.1 ≠ b.1) →
    ∀ (d : Str) (r : ℚ) (c : ℕ), es.foldl peakStep acc = (some d, r, c) →
    acc.2.1 < r → ∀ e ∈ es, e.2.revenue = r → strLe d e.1 = true
  | [], acc, _, d, r, c, _, _, e, he, _ => absurd he (List.not_mem_nil e)
  | e₀ :: es, acc, hp, d, r, c, heq, hgt, e, he, hrev => by
    rw [List.foldl_cons] at heq
    rcases List.pairwise_cons.mp hp with ⟨hhead, htail⟩
    by_cases hstep : acc.2.1 < e₀.2.revenue
    · have hs : peakStep acc e₀
          = (some e₀.1, e₀.2.revenue, e₀.2.transaction_count) := by
        unfold peakStep
        rw [if_pos hstep]
      rw [hs] at heq
      rcases peak_foldl_eq_or_gt es
          (some e₀.1, e₀.2.revenue, e₀.2.transaction_count) with h4 | h4
      · rw [heq] at h4
        have hd : d = e₀.1 := by
          have := congrArg Prod.fst h4
          simpa using this
        rcases List.mem_cons.mp he with rfl | hmem
        · rw [hd]
          exact strLe_refl e.1
        · rw [hd]
          exact (hhead e hmem).1
      · rw [heq] at h4
        dsimp only at h4
        rcases List.mem_cons.mp he with rfl | hmem
        · exact absurd (hrev ▸ h4) (lt_irrefl r)
        · exact peak_foldl_first es _ htail d r c heq h4 e hmem hrev
    · have hs : peakStep acc e₀ = acc := by
        unfold peakStep
        rw [if_neg hstep]
      rw [hs] at heq
      rcases List.mem_cons.mp he with rfl | hmem
      · exact absurd (hrev ▸ not_lt.mp hstep) (not_le.mpr hgt)
      · exact peak_foldl_first es acc htail d r c heq hgt e hmem hrev

theorem trend_ne_nil (tx : List Transaction) (h : tx ≠ []) :
    daily_sales_trend tx ≠ [] := by
  intro hnil
  have hg := groupFold_ne_nil (fun t => t.Date)
    (DayAcc.mk 0 0 []) (fun t d => DayAcc.mk (d.revenue + amount t)
      (d.transaction_count + 1) (addCustomer t.CustomerID d.customers)) tx h
  have hlen : (List.mergeSort ((dailyGroups tx).map fun e =>
      (e.1, DayStats.mk e.2.revenue e.2.transaction_count e.2.customers.length))
      (fun a b => strLe a.1 b.1)).length = 0 := congrArg List.length hnil
  rw [List.length_mergeSort, List.length_map] at hlen
  exact hg (List.eq_nil_of_length_eq_zero hlen)

/-! ## Claim C5 -/

/-- Claim C5: on cleaned records (all valid), `find_peak_sales_day`
returns the sentinel `(None, 0.0, 0)` on empty input, and otherwise a
`(date, revenue, count)` triple taken from the daily trend whose
revenue is the maximum daily revenue, the chosen date being the
earliest (lexicographically least) date among the days achieving that
maximum — the strict `>` comparison makes the first chronological date
win ties. -/
theorem C5_peak (tx : List Transaction) (hv : ∀ t ∈ tx, isValid t = true) :
    (tx = [] → find_peak_sales_day tx = (none, 0, 0)) ∧
    (tx ≠ [] → ∃ d r c, find_peak_sales_day tx = (some d, r, c) ∧
      (∃ u, (d, DayStats.mk r c u) ∈ daily_sales_trend tx) ∧
      (∀ e ∈ daily_sales_trend tx, e.2.revenue ≤ r) ∧
      (∀ e ∈ daily_sales_trend tx, e.2.revenue = r → strLe d e.1 = true)) := by
  constructor
  · rintro rfl
    simp [find_peak_sales_day, daily_sales_trend, dailyGroups, groupFold]
  · intro hne
    have hpos := trend_rev_pos tx hv
    have htrne := trend_ne_nil tx hne
    obtain ⟨e₀, he₀⟩ := List.exists_mem_of_ne_nil _ htrne
    have hub := peak_foldl_ub (daily_sales_trend tx) (none, 0, 0)
    have hgt0 : (0:ℚ)
        < ((daily_sales_trend tx).foldl peakStep (none, 0, 0)).2.1 :=
      lt_of_lt_of_le (hpos e₀ he₀) (hub e₀ he₀)
    rcases peak_foldl_mem (daily_sales_trend tx) (none, 0, 0)
        with hacc | ⟨e, he, heq⟩
    · rw [hacc] at hgt0
      exact absurd hgt0 (lt_irrefl 0)
    · refine ⟨e.1, e.2.revenue, e.2.transaction_count, heq,
        ⟨e.2.unique_customers, ?_⟩, fun x hx => ?_, fun x hx hxr => ?_⟩
      · exact (show (e.1, e.2) ∈ daily_sales_trend tx from he)
      · have hx2 := hub x hx
        rw [heq] at hx2
        exact hx2
      · rw [heq] at hgt0
        dsimp only at hgt0
        exact peak_foldl_first (daily_sales_trend tx) (none, 0, 0)
          (trend_strict tx) e.1 e.2.revenue e.2.transaction_count heq hgt0
          x hx hxr

/-- Witness for claim C5, at a concrete nonempty cleaned input. -/
theorem C5_peak_witness :
    ([tNorth, tSouth].all isValid) = true ∧
    (find_peak_sales_day [tNorth, tSouth]).1.isSome = true := by
  refine ⟨by decide, ?_⟩
  obtain ⟨d, r, c, heq, _⟩ :=
    (C5_peak [tNorth, tSouth] (by decide)).2 (by decide)
  rw [heq]
  rfl

/-! ## Claims C6 and C10 (enrichment) -/

/-- What claim C6 asserts of one output record `e` produced for the
input record `t`: the original fields are carried unchanged, the match
flag is set exactly when the numeric suffix of `ProductID` parses and
is present in the mapping, matched records copy the three metadata
fields from the mapping, and unmatched records carry `None` in all
three. -/
def enrichProp (m : List (ℤ × ProductInfo)) (t : Transaction)
    (e : EnrichedTransaction) : Prop :=
  e.base = t ∧
  (e.API_Match = true ↔ ∃ k info, pyInt (t.ProductID.drop 1) = some k ∧
    lookupId k m = some info) ∧
  (∀ k info, pyInt (t.ProductID.drop 1) = some k → lookupId k m = some info →
    e.API_Category = some info.category ∧ e.API_Brand = some info.brand ∧
    e.API_Rating = some info.rating) ∧
  (e.API_Match = false →
    e.API_Category = none ∧ e.API_Brand = none ∧ e.API_Rating = none)

theorem enrichOne_spec (m : List (ℤ × ProductInfo)) (t : Transaction) :
    enrichProp m t (enrichOne m t) := by
  unfold enrichProp
  cases hk : pyInt (t.ProductID.drop 1) with
  | none =>
    have he : enrichOne m t =
        { base := t, API_Category := none, API_Brand := none,
          API_Rating := none, API_Match := false } := by
      unfold enrichOne
      rw [hk]
    rw [he]
    refine ⟨rfl, ⟨fun h => absurd h (by simp), ?_⟩, ?_,
      fun _ => ⟨rfl, rfl, rfl⟩⟩
    · rintro ⟨k1, info, hh, h2⟩
      exact absurd hh (by simp)
    · intro k1 info hh h2
      exact absurd hh (by simp)
  | some k =>
    cases hl : lookupId k m with
    | none =>
      have he : enrichOne m t =
          { base := t, API_Category := none, API_Brand := none,
            API_Rating := none, API_Match := false } := by
        unfold enrichOne
        rw [hk]
        dsimp only
        rw [hl]
      rw [he]
      refine ⟨rfl, ⟨fun h => absurd h (by simp), ?_⟩, ?_,
        fun _ => ⟨rfl, rfl, rfl⟩⟩
      · rintro ⟨k1, info, hh, h2⟩
        rw [Option.some.injEq] at hh
        rw [← hh, hl] at h2
        exact absurd h2 (by simp)
      · intro k1 info hh h2
        rw [Option.some.injEq] at hh
        rw [← hh, hl] at h2
        exact absurd h2 (by simp)
    | some info =>
      have he : enrichOne m t =
          { base := t, API_Category := some info.category,
            API_Brand := some info.brand, API_Rating := some info.rating,
            API_Match := true } := by
        unfold enrichOne
        rw [hk]
        dsimp only
        rw [hl]
      rw [he]
      refine ⟨rfl, ⟨fun _ => ⟨k, info, rfl, hl⟩, fun _ => rfl⟩, ?_,
        fun hcon => absurd hcon (by simp)⟩
      intro k1 info1 hh h2
      rw [Option.some.injEq] at hh
      rw [← hh, hl, Option.some.injEq] at h2
      rw [← h2]
      exact ⟨rfl, rfl, rfl⟩

/-- Claim C6: for every cleaned transaction sequence and every metadata
mapping (including the empty one), `enrich_sales_data` is total,
returns exactly one output record per input record in order
(`Forall₂`), carries each input record unchanged, sets
`API_Match = true` with the metadata copied from the mapping exactly
when the numeric suffix of `ProductID` parses to an id present in the
mapping, and otherwise leaves `API_Match = false` with all three
metadata fields `None`. -/
theorem C6_enrich_total (tx : List Transaction) (m : List (ℤ × ProductInfo)) :
    (enrich_sales_data tx m).length = tx.length ∧
    List.Forall₂ (enrichProp m) tx (enrich_sales_data tx m) := by
  induction tx with
  | nil => exact ⟨rfl, List.Forall₂.nil⟩
  | cons t ts ih =>
    exact ⟨by simp [enrich_sales_data, ih.1],
      List.Forall₂.cons (enrichOne_spec m t) ih.2⟩

/-- Claim C10: the enrichment lookup key depends only on the characters
of `ProductID` after the first one — whenever those characters parse to
an id in the mapping, the record is matched, whatever the first
character is. -/
theorem C10_suffix_only (t : Transaction) (m : List (ℤ × ProductInfo))
    (k : ℤ) (info : ProductInfo) (h1 : pyInt (t.ProductID.drop 1) = some k)
    (h2 : lookupId k m = some info) :
    (enrich_sales_data [t] m).map (fun e => e.API_Match) = [true] := by
  rw [List.drop_one] at h1
  simp [enrich_sales_data, enrichOne, h1, h2]

/-- A transaction whose ProductID is "X5" — it does not start with "P",
yet its suffix "5" is a valid numeric id. -/
def tX5 : Transaction :=
  { TransactionID := "T9".toList, Date := "2024-12-03".toList,
    ProductID := "X5".toList, ProductName := "Mouse".toList,
    Quantity := 1, UnitPrice := 500, CustomerID := "C9".toList,
    Region := "North".toList }

/-- The metadata entry for id 5 used by the C10 witness. -/
def mInfo5 : ProductInfo :=
  { category := "mice".toList, brand := "Logi".toList, rating := 4 }

/-- Witness for claim C10: ProductID "X5" (first character not "P")
with id 5 present in the mapping is matched. -/
theorem C10_suffix_only_witness :
    pyInt (tX5.ProductID.drop 1) = some 5 ∧
    (enrich_sales_data [tX5] [(5, mInfo5)]).map (fun e => e.API_Match)
      = [true] :=
  ⟨by decide, C10_suffix_only tX5 [(5, mInfo5)] 5 mInfo5 (by decide) (by decide)⟩

/-! ## Claim C7 (parser) -/

theorem list_eight {α : Type} : ∀ l : List α, l.length = 8 →
    ∃ a b c d e f g h, l = [a, b, c, d, e, f, g, h]
  | [a, b, c, d, e, f, g, h], _ => ⟨a, b, c, d, e, f, g, h, rfl⟩
  | [], hl => by simp at hl
  | [_], hl => by simp at hl
  | [_, _], hl => by simp at hl
  | [_, _, _], hl => by simp at hl
  | [_, _, _, _], hl => by simp at hl
  | [_, _, _, _, _], hl => by simp at hl
  | [_, _, _, _, _, _], hl => by simp at hl
  | [_, _, _, _, _, _, _], hl => by simp at hl
  | _ :: _ :: _ :: _ :: _ :: _ :: _ :: _ :: _ :: _, hl => by
    simp at hl

/-- Claim C7: `parse_transactions` processes lines independently and in
order (it distributes over append); a line whose pipe-split does not
have exactly 8 fields parses to nothing; and a parsed record carries
exactly the 8 whitespace-trimmed fields of its line, with commas
stripped from the product name, the quantity converted by `int(...)`
and the unit price by `float(...)` (both after comma removal), so no
partial record is ever emitted. -/
theorem C7_parse :
    (∀ l1 l2 : List Str, parse_transactions (l1 ++ l2)
        = parse_transactions l1 ++ parse_transactions l2) ∧
    (∀ line : Str, (splitOnChar '|' line).length ≠ 8 → parseLine line = none) ∧
    (∀ (line : Str) (t : Transaction), parseLine line = some t →
      ∃ fs : List Str, (splitOnChar '|' line).map strTrim = fs ∧
        fs.length = 8 ∧
        fs[0]? = some t.TransactionID ∧ fs[1]? = some t.Date ∧
        fs[2]? = some t.ProductID ∧
        (fs[3]?).map stripCommas = some t.ProductName ∧
        (∃ s, fs[4]? = some s ∧ pyInt (stripCommas s) = some t.Quantity) ∧
        (∃ s, fs[5]? = some s ∧ pyFloat (stripCommas s) = some t.UnitPrice) ∧
        fs[6]? = some t.CustomerID ∧ fs[7]? = some t.Region) := by
  refine ⟨fun l1 l2 => List.filterMap_append l1 l2 parseLine,
    fun line h => ?_, fun line t h => ?_⟩
  · unfold parseLine
    rw [if_neg h]
  · unfold parseLine at h
    by_cases hl : (splitOnChar '|' line).length = 8
    · rw [if_pos hl] at h
      obtain ⟨s1, s2, s3, s4, s5, s6, s7, s8, hfs⟩ :=
        list_eight ((splitOnChar '|' line).map strTrim)
          (by rw [List.length_map]; exact hl)
      rw [hfs] at h
      unfold parseFields at h
      dsimp only at h
      cases hq : pyInt (stripCommas s5) with
      | none =>
        rw [hq] at h
        exact absurd h (by simp)
      | some q =>
        rw [hq] at h
        cases hp : pyFloat (stripCommas s6) with
        | none =>
          rw [hp] at h
          exact absurd h (by simp)
        | some p =>
          rw [hp] at h
          simp only [Option.some_bind, Option.map_some', Option.some.injEq] at h
          refine ⟨[s1, s2, s3, s4, s5, s6, s7, s8], hfs, rfl,
            ?_, ?_, ?_, ?_, ⟨s5, rfl, ?_⟩, ⟨s6, rfl, ?_⟩, ?_, ?_⟩ <;>
            rw [← h]
          · rfl
          · rfl
          · rfl
          · rfl
          · exact hq
          · exact hp
          · rfl
          · rfl
    · rw [if_neg hl] at h
      exact absurd h (by simp)

/-- The record parsed from the well-formed sample line used by the C7
witness. -/
def tLaptop : Transaction :=
  { TransactionID := "T001".toList, Date := "2024-12-01".toList,
    ProductID := "P101".toList, ProductName := "Laptop".toList,
    Quantity := 2, UnitPrice := 45000, CustomerID := "C001".toList,
    Region := "North".toList }

/-- Witness for claim C7: a 2-field line parses to nothing, and the
8-field sample line parses, its trimmed split having exactly 8
fields. -/
theorem C7_parse_witness :
    parseLine "T001|2024-12-01".toList = none ∧
    ((splitOnChar '|'
      "T001|2024-12-01|P101|Laptop|2|45000|C001|North".toList).map
        strTrim).length = 8 := by
  refine ⟨C7_parse.2.1 "T001|2024-12-01".toList (by decide), ?_⟩
  obtain ⟨fs, hfs, hlen, _⟩ := C7_parse.2.2
    "T001|2024-12-01|P101|Laptop|2|45000|C001|North".toList tLaptop
    (by simp [parseLine, parseFields, splitOnChar, strTrim, stripCommas,
      pyInt, pyFloat, readSign, digitsVal, isSpace, tLaptop])
  rw [← hfs] at hlen
  exact hlen

/-! ## Claim C8 (top/low product disjointness) -/

theorem foldl_min_le_self : ∀ (xs : List ℤ) (a : ℤ), xs.foldl min a ≤ a
  | [], _ => le_refl _
  | x :: xs, a =>
    le_trans (foldl_min_le_self xs (min a x)) (min_le_left a x)

theorem foldl_min_le_mem : ∀ (xs : List ℤ) (a : ℤ), ∀ b ∈ xs,
    xs.foldl min a ≤ b
  | x :: xs, a, b, hb => by
    rcases List.mem_cons.mp hb with rfl | hmem
    · exact le_trans (foldl_min_le_self xs (min a b)) (min_le_right a b)
    · exact foldl_min_le_mem xs (min a x) b hmem

theorem foldl_min_mem : ∀ (xs : List ℤ) (a : ℤ),
    xs.foldl min a = a ∨ xs.foldl min a ∈ xs
  | [], _ => Or.inl rfl
  | x :: xs, a => by
    rcases foldl_min_mem xs (min a x) with h | h
    · rw [List.foldl_cons, h]
      rcases min_choice a x with h2 | h2
      · exact Or.inl h2
      · exact Or.inr (by rw [h2]; exact List.mem_cons_self x xs)
    · exact Or.inr (List.mem_cons_of_mem x h)

theorem min?_spec (xs : List ℤ) (m : ℤ) (h : xs.min? = some m) :
    m ∈ xs ∧ ∀ b ∈ xs, m ≤ b := by
  cases xs with
  | nil => simp [List.min?] at h
  | cons x xs =>
    simp only [List.min?, Option.some.injEq] at h
    constructor
    · rcases foldl_min_mem xs x with h2 | h2
      · rw [← h, h2]
        exact List.mem_cons_self x xs
      · rw [← h]
        exact List.mem_cons_of_mem x h2
    · intro b hb
      rcases List.mem_cons.mp hb with rfl | hmem
      · rw [← h]
        exact foldl_min_le_self xs b
      · rw [← h]
        exact foldl_min_le_mem xs x b hmem

theorem top_subset_entries (tx : List Transaction) (n : ℕ) :
    ∀ x ∈ top_selling_products tx n, x ∈ productEntries tx := by
  intro x hx
  unfold top_selling_products at hx
  exact (List.mergeSort_perm _ _).mem_iff.mp (List.mem_of_mem_take hx)

theorem low_mem (tx : List Transaction) (th : ℤ) :
    ∀ x ∈ low_performing_products tx th,
      x ∈ productEntries tx ∧ x.2.1 < th := by
  intro x hx
  unfold low_performing_products at hx
  have h1 := (List.mergeSort_perm _ _).mem_iff.mp hx
  rcases List.mem_map.mp h1 with ⟨g, hg, rfl⟩
  have h2 := List.mem_filter.mp hg
  refine ⟨List.mem_map.mpr ⟨g, h2.1, rfl⟩, ?_⟩
  simpa using h2.2

/-- Claim C8: `top_selling_products(tx, 5)` and
`low_performing_products(tx, 10)` are disjoint whenever no product's
total quantity both equals the top-5 cutoff (the minimum quantity among
the returned top-5 entries) and is strictly below 10. -/
theorem C8_disjoint (tx : List Transaction)
    (hcut : ∀ e ∈ productEntries tx,
      ((top_selling_products tx 5).map fun p => p.2.1).min? = some e.2.1 →
        10 ≤ e.2.1) :
    ∀ x, x ∈ top_selling_products tx 5 →
      x ∈ low_performing_products tx 10 → False := by
  intro x hxt hxl
  have hx10 : x.2.1 < 10 := (low_mem tx 10 x hxl).2
  obtain ⟨m, hm⟩ : ∃ m,
      ((top_selling_products tx 5).map fun p => p.2.1).min? = some m := by
    cases hL : (top_selling_products tx 5).map fun p => p.2.1 with
    | nil =>
      exact absurd hL (List.ne_nil_of_mem (List.mem_map_of_mem _ hxt))
    | cons y ys => exact ⟨ys.foldl min y, rfl⟩
  have hspec := min?_spec _ m hm
  rcases List.mem_map.mp hspec.1 with ⟨e₀, he₀, hm2⟩
  have h10 : 10 ≤ e₀.2.1 := by
    refine hcut e₀ (top_subset_entries tx 5 e₀ he₀) ?_
    rw [hm2]
    exact hm
  have hmx : m ≤ x.2.1 := hspec.2 _ (List.mem_map_of_mem _ hxt)
  omega

/-- A valid transaction selling 12 Laptops at price 10 (total quantity
12, at the top-5 cutoff and not below the threshold 10). -/
def tBig : Transaction :=
  { TransactionID := "T7".toList, Date := "2024-12-02".toList,
    ProductID := "P7".toList, ProductName := "Laptop".toList,
    Quantity := 12, UnitPrice := 10, CustomerID := "C7".toList,
    Region := "West".toList }

/-- Witness for claim C8: on a one-product input with total quantity 12
the cutoff condition holds, and the product triple is not in both
lists. -/
theorem C8_disjoint_witness :
    ¬(("Laptop".toList, (12:ℤ), (120:ℚ)) ∈ top_selling_products [tBig] 5 ∧
      ("Laptop".toList, (12:ℤ), (120:ℚ)) ∈ low_performing_products [tBig] 10) :=
  fun hc =>
    C8_disjoint [tBig]
      (by
        intro e he hmin
        have hent : productEntries [tBig]
            = [("Laptop".toList, (12:ℤ), (120:ℚ))] := by
          norm_num [productEntries, productGroups, groupFold, upsert,
            amount, tBig]
        rw [hent] at he
        rcases List.mem_singleton.mp he with rfl
        norm_num)
      _ hc.1 hc.2

end Sales
